import Mathlib

/-!
# AmigoChat — Registry & Messaging Ledger, shallow embedding

A shallow embedding of the `AmigoChat` Solidity contract
(`contracts/AmigoChat.sol`): the on-chain state (mappings, arrays,
counters) becomes a Lean `State` record, each external write function
becomes a function `State → … → Except String State` whose `require`
guards are translated in source order as nested conditionals returning
the contract's revert strings, and each transaction either succeeds with
a new state or reverts leaving the state untouched (`apply` keeps the
old state on error, mirroring EVM revert semantics).

Modelling decisions, all by the source:
* `address` is `Nat`; `0` is `address(0)`. The host chain guarantees a
  transaction sender is a real account, so reachability quantifies over
  senders `≠ 0`.
* Solidity mappings with default values become total functions with the
  default (`Function.update` for assignment); dynamic arrays become
  `List`s with `push` as append.
* the conversation key `keccak256(abi.encodePacked(min,max))` is
  modelled as the ordered pair `(min, max)` itself — `keccak256` is
  injective for the contract's purposes, so the pair is a faithful key.
* `bytes(s).length` is modelled as `String.length` (byte length and
  character count agree on the ASCII inputs the bounds are about).
* `block.timestamp` is a parameter carried by each transaction.
* price-feed functions, events and the owner/admin functions are not
  read by any of the five state-mutating user operations and are
  omitted; the unused `userMessages` mapping is omitted as well.
-/

namespace AmigoChat

/-- Wallet addresses; `0` plays the role of `address(0)`. -/
abbrev Address := Nat

/-- `struct UserProfile` of the contract. -/
structure UserProfile where
  username : String
  ipfsProfilePicHash : String
  isRegistered : Bool
  registrationTimestamp : Nat
  totalMessagesSent : Nat
deriving Repr, DecidableEq

/-- The mapping default: all-zero profile, as Solidity returns for an
unset key. -/
def UserProfile.empty : UserProfile :=
  ⟨"", "", false, 0, 0⟩

/-- `struct Message` of the contract (general chat). -/
structure Message where
  sender : Address
  content : String
  timestamp : Nat
  messageId : Nat
deriving Repr, DecidableEq

/-- `struct DirectMessage` of the contract. -/
structure DirectMessage where
  sender : Address
  receiver : Address
  content : String
  timestamp : Nat
  isRead : Bool
deriving Repr, DecidableEq

/-- The contract's storage: every mapping, array and counter read or
written by the user-facing operations. -/
structure State where
  users : Address → UserProfile
  usernameToAddress : String → Address
  conversations : Address × Address → List DirectMessage
  userConversations : Address → List Address
  generalChatMessages : List Message
  registeredUsers : List Address
  totalUsers : Nat
  totalMessages : Nat

/-- Storage after the constructor ran: every mapping at its default,
both counters `0`, both arrays empty. -/
def initState : State where
  users := fun _ => UserProfile.empty
  usernameToAddress := fun _ => 0
  conversations := fun _ => []
  userConversations := fun _ => []
  generalChatMessages := []
  registeredUsers := []
  totalUsers := 0
  totalMessages := 0

/-- The canonical conversation key: the contract hashes the two
addresses with the smaller one first (`msg.sender < _receiver ? … : …`);
we keep the ordered pair itself as the key. -/
def convKey (a b : Address) : Address × Address :=
  if a < b then (a, b) else (b, a)

/-- `isInConversation`: linear scan of `userConversations[_user1]` for
`_user2`. -/
def isInConversation (s : State) (u1 u2 : Address) : Bool :=
  (s.userConversations u1).contains u2

/-- `isUsernameAvailable`: true iff no index entry exists. -/
def isUsernameAvailable (s : State) (u : String) : Bool :=
  s.usernameToAddress u == 0

/-- `isUserRegistered`. -/
def isUserRegistered (s : State) (a : Address) : Bool :=
  (s.users a).isRegistered

/-- `getConversation`: look up the canonical key for the pair. -/
def getConversation (s : State) (u1 u2 : Address) : List DirectMessage :=
  s.conversations (convKey u1 u2)

/-- `getGeneralChatMessages`. -/
def getGeneralChatMessages (s : State) : List Message :=
  s.generalChatMessages

/-- `getUserConversations`. -/
def getUserConversations (s : State) (a : Address) : List Address :=
  s.userConversations a

/-- The storage mutation `registerUser` performs once its requires have
all passed. -/
def registerStore (s : State) (sender : Address) (u ipfs : String)
    (time : Nat) : State :=
  { s with
    users := Function.update s.users sender
      ⟨u, ipfs, true, time, 0⟩
    usernameToAddress := Function.update s.usernameToAddress u sender
    registeredUsers := s.registeredUsers ++ [sender]
    totalUsers := s.totalUsers + 1 }

/-- `registerUser`: the `validUsername` modifier's two requires, then
the two body requires, then the state mutation. -/
def registerUser (s : State) (sender : Address) (u ipfs : String)
    (time : Nat) : Except String State :=
  if u.length = 0 then .error "Username cannot be empty"
  else if 50 < u.length then .error "Username too long (max 50 characters)"
  else if (s.users sender).isRegistered then .error "User is already registered"
  else if s.usernameToAddress u ≠ 0 then .error "Username is already taken"
  else .ok (registerStore s sender u ipfs time)

/-- The storage mutation of `changeUsername`: delete the old index
entry (set it to `address(0)`), update the profile, claim the new
entry, in the source's order. -/
def changeStore (s : State) (sender : Address) (newU : String) : State :=
  let oldU := (s.users sender).username
  { s with
    usernameToAddress := Function.update
      (Function.update s.usernameToAddress oldU 0) newU sender
    users := Function.update s.users sender
      { s.users sender with username := newU } }

/-- `changeUsername` proper: the modifier chain then the availability
require; `_time` only feeds the (omitted) event. -/
def changeUsername (s : State) (sender : Address) (newU : String)
    (_time : Nat) : Except String State :=
  if ¬ (s.users sender).isRegistered then
    .error "User must be registered to perform this action"
  else if newU.length = 0 then .error "Username cannot be empty"
  else if 50 < newU.length then .error "Username too long (max 50 characters)"
  else if s.usernameToAddress newU ≠ 0 then .error "Username is already taken"
  else .ok (changeStore s sender newU)

/-- The storage mutation of `updateProfilePicture`: unconditional
overwrite of the hash. -/
def picStore (s : State) (sender : Address) (ipfs : String) : State :=
  { s with
    users := Function.update s.users sender
      { s.users sender with ipfsProfilePicHash := ipfs } }

/-- `updateProfilePicture` proper. -/
def updateProfilePicture (s : State) (sender : Address) (ipfs : String) :
    Except String State :=
  if ¬ (s.users sender).isRegistered then
    .error "User must be registered to perform this action"
  else .ok (picStore s sender ipfs)

/-- The storage mutation of `sendMessage`: push the message (its id is
the pre-state `totalMessages`), bump the sender's count, bump the
global counter. -/
def postStore (s : State) (sender : Address) (content : String)
    (time : Nat) : State :=
  { s with
    generalChatMessages :=
      s.generalChatMessages ++ [⟨sender, content, time, s.totalMessages⟩]
    users := Function.update s.users sender
      { s.users sender with
        totalMessagesSent := (s.users sender).totalMessagesSent + 1 }
    totalMessages := s.totalMessages + 1 }

/-- `sendMessage` proper. -/
def sendMessage (s : State) (sender : Address) (content : String)
    (time : Nat) : Except String State :=
  if ¬ (s.users sender).isRegistered then
    .error "User must be registered to perform this action"
  else if content.length = 0 then .error "Message cannot be empty"
  else if 1000 < content.length then .error "Message too long (max 1000 characters)"
  else .ok (postStore s sender content time)

/-- The storage mutation of `sendDirectMessage`: append to the
canonical conversation and — when `isInConversation` is false — push
each party onto the other's conversation list, in the source's order
(receiver onto sender's list first). The two pushes land on the same
list when sender = receiver. -/
def dmStore (s : State) (sender receiver : Address)
    (content : String) (time : Nat) : State :=
  let key := convKey sender receiver
  let newDM : DirectMessage := ⟨sender, receiver, content, time, false⟩
  let conv' := Function.update s.conversations key (s.conversations key ++ [newDM])
  let uc' :=
    if isInConversation s sender receiver then s.userConversations
    else
      let step1 := Function.update s.userConversations sender
        (s.userConversations sender ++ [receiver])
      Function.update step1 receiver (step1 receiver ++ [sender])
  { s with conversations := conv', userConversations := uc' }

/-- `sendDirectMessage` proper. -/
def sendDirectMessage (s : State) (sender receiver : Address)
    (content : String) (time : Nat) : Except String State :=
  if ¬ (s.users sender).isRegistered then
    .error "User must be registered to perform this action"
  else if content.length = 0 then .error "Message cannot be empty"
  else if 1000 < content.length then .error "Message too long (max 1000 characters)"
  else if ¬ (s.users receiver).isRegistered then
    .error "Receiver must be registered"
  else .ok (dmStore s sender receiver content time)

/-- One user-facing state-mutating call, with its sender and the block
timestamp it runs at. -/
inductive Tx where
  | register (sender : Address) (u ipfs : String) (time : Nat)
  | changeName (sender : Address) (newU : String) (time : Nat)
  | updatePic (sender : Address) (ipfs : String)
  | post (sender : Address) (content : String) (time : Nat)
  | dm (sender receiver : Address) (content : String) (time : Nat)
deriving Repr, DecidableEq

/-- The `msg.sender` of a transaction. -/
def Tx.sender : Tx → Address
  | .register a _ _ _ => a
  | .changeName a _ _ => a
  | .updatePic a _ => a
  | .post a _ _ => a
  | .dm a _ _ _ => a

/-- Dispatch a transaction to the contract function it calls. -/
def exec (s : State) : Tx → Except String State
  | .register a u i t => registerUser s a u i t
  | .changeName a u t => changeUsername s a u t
  | .updatePic a i => updateProfilePicture s a i
  | .post a c t => sendMessage s a c t
  | .dm a b c t => sendDirectMessage s a b c t

/-- EVM transaction semantics: a revert leaves storage exactly as it
was. -/
def apply (s : State) (tx : Tx) : State :=
  match exec s tx with
  | .ok s' => s'
  | .error _ => s

/-- States reachable from the fresh deployment by any sequence of calls
(successful or reverted). The `tx.sender ≠ 0` side condition is the
host chain's guarantee that transactions originate from real accounts,
never from `address(0)`. -/
inductive Reachable : State → Prop
  | init : Reachable initState
  | step {s : State} (tx : Tx) (hs : tx.sender ≠ 0) :
      Reachable s → Reachable (apply s tx)

/-- The profile/username-index consistency invariant: every registered
profile is a real account whose username points back at it in the
index, and every nonzero index entry points at a registered profile
carrying exactly that username. -/
def GoodState (s : State) : Prop :=
  (∀ a, (s.users a).isRegistered = true →
    a ≠ 0 ∧ s.usernameToAddress (s.users a).username = a) ∧
  (∀ n, s.usernameToAddress n ≠ 0 →
    (s.users (s.usernameToAddress n)).isRegistered = true ∧
    (s.users (s.usernameToAddress n)).username = n)

/-- The counter/array agreement invariant: `totalUsers` counts the
registered-address array, `totalMessages` counts the general-chat
array. -/
def CountInv (s : State) : Prop :=
  s.totalUsers = s.registeredUsers.length ∧
  s.totalMessages = s.generalChatMessages.length

/-- The general-chat id invariant: the counter equals the array length
and the message at index `i` carries id `i`. -/
def MsgIdInv (s : State) : Prop :=
  s.totalMessages = s.generalChatMessages.length ∧
  ∀ i (h : i < s.generalChatMessages.length),
    (s.generalChatMessages.get ⟨i, h⟩).messageId = i

/-- The conversation-index invariant: for distinct `a`, `b`, the
number of occurrences of `b` in `a`'s partner list is `0` when the two
have never exchanged a direct message and exactly `1` otherwise. -/
def UcInv (s : State) : Prop :=
  ∀ a b : Address, a ≠ b →
    (s.userConversations a).count b =
      if s.conversations (convKey a b) = [] then 0 else 1

/-- Example states used to witness the theorems on concrete inputs. -/
def sAlice : State := apply initState (.register 1 "alice" "av" 0)

def sAB : State := apply sAlice (.register 2 "bob" "bv" 1)

def sABdm : State := apply sAB (.dm 1 2 "yo" 3)

def sPost : State := apply sAlice (.post 1 "hi" 5)

def sSelfDM : State := apply sAlice (.dm 1 1 "hi" 2)

/-- The 1001-character content of the spec's rejected-write example. -/
def longContent : String := String.mk (List.replicate 1001 'a')

/-- States reachable from a given state by register calls alone —
the quantifier of the spec's "for all sequences of register calls"
property. -/
inductive RegReach : State → State → Prop
  | refl (s : State) : RegReach s s
  | step {s s' : State} (a : Address) (u i : String) (t : Nat) :
      RegReach s s' → RegReach s (apply s' (.register a u i t))

/-- The canonical key is symmetric in its two arguments. -/
theorem convKey_comm (a b : Address) : convKey a b = convKey b a := by
  unfold convKey
  rcases Nat.lt_trichotomy a b with h | h | h
  · rw [if_pos h, if_neg (Nat.lt_asymm h)]
  · subst h; rfl
  · rw [if_neg (Nat.lt_asymm h), if_pos h]

/-- Two pairs with the same canonical key are the same unordered
pair. -/
theorem convKey_inj {a b c d : Address} (h : convKey a b = convKey c d) :
    (a = c ∧ b = d) ∨ (a = d ∧ b = c) := by
  unfold convKey at h
  split_ifs at h <;> simp only [Prod.mk.injEq] at h <;>
    first
      | exact Or.inl h
      | exact Or.inr h
      | exact Or.inr ⟨h.2, h.1⟩
      | exact Or.inl ⟨h.2, h.1⟩

/-- Success inversion for `registerUser`. -/
theorem registerUser_ok_iff {s : State} {a : Address} {u i : String}
    {t : Nat} {s' : State} :
    registerUser s a u i t = .ok s' ↔
      u.length ≠ 0 ∧ u.length ≤ 50 ∧ (s.users a).isRegistered = false ∧
      s.usernameToAddress u = 0 ∧ registerStore s a u i t = s' := by
  unfold registerUser
  split_ifs with h1 h2 h3 h4 <;> simp_all

/-- Success inversion for `changeUsername`. -/
theorem changeUsername_ok_iff {s : State} {a : Address} {u : String}
    {t : Nat} {s' : State} :
    changeUsername s a u t = .ok s' ↔
      (s.users a).isRegistered = true ∧ u.length ≠ 0 ∧ u.length ≤ 50 ∧
      s.usernameToAddress u = 0 ∧ changeStore s a u = s' := by
  unfold changeUsername
  split_ifs with h1 h2 h3 h4 <;> simp_all

/-- Success inversion for `updateProfilePicture`. -/
theorem updateProfilePicture_ok_iff {s : State} {a : Address} {i : String}
    {s' : State} :
    updateProfilePicture s a i = .ok s' ↔
      (s.users a).isRegistered = true ∧ picStore s a i = s' := by
  unfold updateProfilePicture
  split_ifs with h1 <;> simp_all

/-- Success inversion for `sendMessage`. -/
theorem sendMessage_ok_iff {s : State} {a : Address} {c : String}
    {t : Nat} {s' : State} :
    sendMessage s a c t = .ok s' ↔
      (s.users a).isRegistered = true ∧ c.length ≠ 0 ∧ c.length ≤ 1000 ∧
      postStore s a c t = s' := by
  unfold sendMessage
  split_ifs with h1 h2 h3 <;> simp_all

/-- Success inversion for `sendDirectMessage`. -/
theorem sendDirectMessage_ok_iff {s : State} {a b : Address} {c : String}
    {t : Nat} {s' : State} :
    sendDirectMessage s a b c t = .ok s' ↔
      (s.users a).isRegistered = true ∧ c.length ≠ 0 ∧ c.length ≤ 1000 ∧
      (s.users b).isRegistered = true ∧ dmStore s a b c t = s' := by
  unfold sendDirectMessage
  split_ifs with h1 h2 h3 h4 <;> simp_all

theorem goodState_init : GoodState initState := by
  constructor
  · intro a ha; simp [initState, UserProfile.empty] at ha
  · intro n hn; simp [initState] at hn

/-- `GoodState` only looks at profiles' registration flag and username
and at the index, so it transfers along agreement on those. -/
theorem goodState_congr {s s' : State}
    (h1 : ∀ a, (s'.users a).isRegistered = (s.users a).isRegistered)
    (h2 : ∀ a, (s'.users a).username = (s.users a).username)
    (h3 : ∀ n, s'.usernameToAddress n = s.usernameToAddress n)
    (hg : GoodState s) : GoodState s' := by
  obtain ⟨hg1, hg2⟩ := hg
  constructor
  · intro a ha
    rw [h1] at ha
    obtain ⟨ha0, hmap⟩ := hg1 a ha
    exact ⟨ha0, by rw [h3, h2, hmap]⟩
  · intro n hn
    rw [h3] at hn
    obtain ⟨hr, hu⟩ := hg2 n hn
    rw [h3, h1, h2]
    exact ⟨hr, hu⟩

theorem goodState_registerStore {s : State} {sender : Address}
    {u i : String} {t : Nat} (hg : GoodState s) (hs : sender ≠ 0)
    (hreg : (s.users sender).isRegistered = false)
    (hfree : s.usernameToAddress u = 0) :
    GoodState (registerStore s sender u i t) := by
  obtain ⟨h1, h2⟩ := hg
  constructor
  · intro x hx
    by_cases hxa : x = sender
    · subst hxa
      refine ⟨hs, ?_⟩
      simp [registerStore, Function.update_same]
    · have hx' : (s.users x).isRegistered = true := by
        simpa [registerStore, Function.update_noteq hxa] using hx
      obtain ⟨hx0, hmap⟩ := h1 x hx'
      have hneq : (s.users x).username ≠ u := by
        intro he
        rw [he, hfree] at hmap
        exact hx0 hmap.symm
      exact ⟨hx0, by
        simp [registerStore, Function.update_noteq hxa,
          Function.update_noteq hneq, hmap]⟩
  · intro n hn
    by_cases hnu : n = u
    · subst hnu
      simp [registerStore, Function.update_same]
    · have hn' : s.usernameToAddress n ≠ 0 := by
        simpa [registerStore, Function.update_noteq hnu] using hn
      obtain ⟨hr, hu⟩ := h2 n hn'
      have hna : s.usernameToAddress n ≠ sender := by
        intro he
        rw [he, hreg] at hr
        exact Bool.false_ne_true hr
      simp [registerStore, Function.update_noteq hnu,
        Function.update_noteq hna, hr, hu]

theorem goodState_changeStore {s : State} {sender : Address} {newU : String}
    (hg : GoodState s)
    (hreg : (s.users sender).isRegistered = true)
    (hfree : s.usernameToAddress newU = 0) :
    GoodState (changeStore s sender newU) := by
  obtain ⟨h1, h2⟩ := hg
  obtain ⟨hs0, hold⟩ := h1 sender hreg
  have holdnew : (s.users sender).username ≠ newU := by
    intro he
    rw [he, hfree] at hold
    exact hs0 hold.symm
  constructor
  · intro x hx
    by_cases hxa : x = sender
    · subst hxa
      refine ⟨hs0, ?_⟩
      simp [changeStore, Function.update_same]
    · have hx' : (s.users x).isRegistered = true := by
        simpa [changeStore, Function.update_noteq hxa] using hx
      obtain ⟨hx0, hmap⟩ := h1 x hx'
      have hxnew : (s.users x).username ≠ newU := by
        intro he
        rw [he, hfree] at hmap
        exact hx0 hmap.symm
      have hxold : (s.users x).username ≠ (s.users sender).username := by
        intro he
        rw [he, hold] at hmap
        exact hxa hmap.symm
      exact ⟨hx0, by
        simp [changeStore, Function.update_noteq hxa,
          Function.update_noteq hxnew, Function.update_noteq hxold, hmap]⟩
  · intro n hn
    by_cases hnnew : n = newU
    · subst hnnew
      simp [changeStore, Function.update_same, hreg]
    · by_cases hnold : n = (s.users sender).username
      · exfalso
        apply hn
        subst hnold
        simp [changeStore, Function.update_noteq hnnew, Function.update_same]
      · have hn' : s.usernameToAddress n ≠ 0 := by
          simpa [changeStore, Function.update_noteq hnnew,
            Function.update_noteq hnold] using hn
        obtain ⟨hr, hu⟩ := h2 n hn'
        have hna : s.usernameToAddress n ≠ sender := by
          intro he
          apply hnold
          rw [← hu, he]
        simp [changeStore, Function.update_noteq hnnew,
          Function.update_noteq hnold, Function.update_noteq hna, hr, hu]

theorem goodState_picStore {s : State} {sender : Address} {i : String}
    (hg : GoodState s) : GoodState (picStore s sender i) := by
  refine goodState_congr (s := s) ?_ ?_ (fun _ => rfl) hg
  · intro a
    by_cases hxa : a = sender
    · subst hxa; simp [picStore, Function.update_same]
    · simp [picStore, Function.update_noteq hxa]
  · intro a
    by_cases hxa : a = sender
    · subst hxa; simp [picStore, Function.update_same]
    · simp [picStore, Function.update_noteq hxa]

theorem goodState_postStore {s : State} {sender : Address} {c : String}
    {t : Nat} (hg : GoodState s) : GoodState (postStore s sender c t) := by
  refine goodState_congr (s := s) ?_ ?_ (fun _ => rfl) hg
  · intro a
    by_cases hxa : a = sender
    · subst hxa; simp [postStore, Function.update_same]
    · simp [postStore, Function.update_noteq hxa]
  · intro a
    by_cases hxa : a = sender
    · subst hxa; simp [postStore, Function.update_same]
    · simp [postStore, Function.update_noteq hxa]

theorem goodState_dmStore {s : State} {sender receiver : Address}
    {c : String} {t : Nat} (hg : GoodState s) :
    GoodState (dmStore s sender receiver c t) :=
  goodState_congr (s := s) (fun _ => rfl) (fun _ => rfl) (fun _ => rfl) hg

/-- Every transaction — successful or reverted — preserves the
username-consistency invariant, provided its sender is a real
account. -/
theorem goodState_apply {s : State} (tx : Tx) (hs : tx.sender ≠ 0)
    (hg : GoodState s) : GoodState (apply s tx) := by
  cases tx with
  | register a u i t =>
    unfold apply
    cases hE : exec s (.register a u i t) with
    | error e => exact hg
    | ok s' =>
      simp only [exec] at hE
      rw [registerUser_ok_iff] at hE
      obtain ⟨-, -, hreg, hfree, hst⟩ := hE
      rw [← hst]
      exact goodState_registerStore hg hs hreg hfree
  | changeName a u t =>
    unfold apply
    cases hE : exec s (.changeName a u t) with
    | error e => exact hg
    | ok s' =>
      simp only [exec] at hE
      rw [changeUsername_ok_iff] at hE
      obtain ⟨hreg, -, -, hfree, hst⟩ := hE
      rw [← hst]
      exact goodState_changeStore hg hreg hfree
  | updatePic a i =>
    unfold apply
    cases hE : exec s (.updatePic a i) with
    | error e => exact hg
    | ok s' =>
      simp only [exec] at hE
      rw [updateProfilePicture_ok_iff] at hE
      obtain ⟨-, hst⟩ := hE
      rw [← hst]
      exact goodState_picStore hg
  | post a c t =>
    unfold apply
    cases hE : exec s (.post a c t) with
    | error e => exact hg
    | ok s' =>
      simp only [exec] at hE
      rw [sendMessage_ok_iff] at hE
      obtain ⟨-, -, -, hst⟩ := hE
      rw [← hst]
      exact goodState_postStore hg
  | dm a b c t =>
    unfold apply
    cases hE : exec s (.dm a b c t) with
    | error e => exact hg
    | ok s' =>
      simp only [exec] at hE
      rw [sendDirectMessage_ok_iff] at hE
      obtain ⟨-, -, -, -, hst⟩ := hE
      rw [← hst]
      exact goodState_dmStore hg

/-- Every reachable state satisfies the username-consistency
invariant. -/
theorem reachable_goodState {s : State} (h : Reachable s) : GoodState s := by
  induction h with
  | init => exact goodState_init
  | step tx hs _ ih => exact goodState_apply tx hs ih

/-- Enumeration of what `apply` can produce: the reverted case, or the
store function of the one operation that succeeded, together with the
preconditions its success implies. -/
theorem apply_rcases (s : State) (tx : Tx) :
    apply s tx = s ∨
    (∃ a u i t, tx = .register a u i t ∧
      (s.users a).isRegistered = false ∧ s.usernameToAddress u = 0 ∧
      apply s tx = registerStore s a u i t) ∨
    (∃ a u t, tx = .changeName a u t ∧ (s.users a).isRegistered = true ∧
      s.usernameToAddress u = 0 ∧ apply s tx = changeStore s a u) ∨
    (∃ a i, tx = .updatePic a i ∧ (s.users a).isRegistered = true ∧
      apply s tx = picStore s a i) ∨
    (∃ a c t, tx = .post a c t ∧ (s.users a).isRegistered = true ∧
      apply s tx = postStore s a c t) ∨
    (∃ a b c t, tx = .dm a b c t ∧ (s.users a).isRegistered = true ∧
      (s.users b).isRegistered = true ∧ apply s tx = dmStore s a b c t) := by
  cases tx with
  | register a u i t =>
    unfold apply
    cases hE : exec s (.register a u i t) with
    | error e => exact Or.inl rfl
    | ok s' =>
      simp only [exec] at hE
      rw [registerUser_ok_iff] at hE
      obtain ⟨-, -, h3, h4, h5⟩ := hE
      exact Or.inr (Or.inl ⟨a, u, i, t, rfl, h3, h4, h5.symm⟩)
  | changeName a u t =>
    unfold apply
    cases hE : exec s (.changeName a u t) with
    | error e => exact Or.inl rfl
    | ok s' =>
      simp only [exec] at hE
      rw [changeUsername_ok_iff] at hE
      obtain ⟨h1, -, -, h4, h5⟩ := hE
      exact Or.inr (Or.inr (Or.inl ⟨a, u, t, rfl, h1, h4, h5.symm⟩))
  | updatePic a i =>
    unfold apply
    cases hE : exec s (.updatePic a i) with
    | error e => exact Or.inl rfl
    | ok s' =>
      simp only [exec] at hE
      rw [updateProfilePicture_ok_iff] at hE
      obtain ⟨h1, h2⟩ := hE
      exact Or.inr (Or.inr (Or.inr (Or.inl ⟨a, i, rfl, h1, h2.symm⟩)))
  | post a c t =>
    unfold apply
    cases hE : exec s (.post a c t) with
    | error e => exact Or.inl rfl
    | ok s' =>
      simp only [exec] at hE
      rw [sendMessage_ok_iff] at hE
      obtain ⟨h1, -, -, h4⟩ := hE
      exact Or.inr (Or.inr (Or.inr (Or.inr (Or.inl ⟨a, c, t, rfl, h1, h4.symm⟩))))
  | dm a b c t =>
    unfold apply
    cases hE : exec s (.dm a b c t) with
    | error e => exact Or.inl rfl
    | ok s' =>
      simp only [exec] at hE
      rw [sendDirectMessage_ok_iff] at hE
      obtain ⟨h1, -, -, h4, h5⟩ := hE
      exact Or.inr (Or.inr (Or.inr (Or.inr (Or.inr ⟨a, b, c, t, rfl, h1, h4, h5.symm⟩))))

/-- Every transaction — reverted or successful — preserves `CountInv`
from an arbitrary state. -/
theorem countInv_apply (s : State) (tx : Tx) (h : CountInv s) :
    CountInv (apply s tx) := by
  obtain ⟨h1, h2⟩ := h
  rcases apply_rcases s tx with hA |
    ⟨a, u, i, t, -, -, -, hA⟩ | ⟨a, u, t, -, -, -, hA⟩ |
    ⟨a, i, -, -, hA⟩ | ⟨a, c, t, -, -, hA⟩ | ⟨a, b, c, t, -, -, -, hA⟩ <;>
  rw [hA] <;>
  constructor <;>
  simp [registerStore, changeStore, picStore, postStore, dmStore, h1, h2]

/-- Every transaction preserves `MsgIdInv` from an arbitrary state. -/
theorem msgIdInv_apply (s : State) (tx : Tx) (h : MsgIdInv s) :
    MsgIdInv (apply s tx) := by
  obtain ⟨h1, h2⟩ := h
  rcases apply_rcases s tx with hA |
    ⟨a, u, i, t, -, -, -, hA⟩ | ⟨a, u, t, -, -, -, hA⟩ |
    ⟨a, i, -, -, hA⟩ | ⟨a, c, t, -, -, hA⟩ | ⟨a, b, c, t, -, -, -, hA⟩ <;>
  rw [hA]
  · exact ⟨h1, h2⟩
  · exact ⟨by simp [registerStore, h1], fun i hi => by
      simpa [registerStore] using h2 i (by simpa [registerStore] using hi)⟩
  · exact ⟨by simp [changeStore, h1], fun i hi => by
      simpa [changeStore] using h2 i (by simpa [changeStore] using hi)⟩
  · exact ⟨by simp [picStore, h1], fun i hi => by
      simpa [picStore] using h2 i (by simpa [picStore] using hi)⟩
  · refine ⟨by simp [postStore, h1], ?_⟩
    intro i hi
    have hi' : i < s.generalChatMessages.length + 1 := by
      simpa [postStore] using hi
    rcases Nat.lt_or_ge i s.generalChatMessages.length with hlt | hge
    · have : (postStore s a c t).generalChatMessages.get ⟨i, hi⟩ =
          s.generalChatMessages.get ⟨i, hlt⟩ := by
        simp [postStore, List.getElem_append, hlt]
      rw [this]
      exact h2 i hlt
    · have hieq : i = s.generalChatMessages.length := by omega
      subst hieq
      have : (postStore s a c t).generalChatMessages.get ⟨_, hi⟩ =
          ⟨a, c, t, s.totalMessages⟩ := by
        simp [postStore]
      rw [this, h1]
  · exact ⟨by simp [dmStore, h1], fun i hi => by
      simpa [dmStore] using h2 i (by simpa [dmStore] using hi)⟩

theorem convKey_self (x : Address) : convKey x x = (x, x) := by
  simp [convKey]

theorem convKey_ne_self {a b x : Address} (hab : a ≠ b) :
    convKey a b ≠ convKey x x := by
  intro h
  rcases convKey_inj h with ⟨h1, h2⟩ | ⟨h1, h2⟩ <;> exact hab (h1.trans h2.symm)

theorem dmStore_conversations_key (s : State) (x y : Address) (c : String)
    (t : Nat) :
    (dmStore s x y c t).conversations (convKey x y) =
      s.conversations (convKey x y) ++ [⟨x, y, c, t, false⟩] := by
  simp [dmStore, Function.update_same]

theorem dmStore_conversations_ne (s : State) (x y : Address) (c : String)
    (t : Nat) {k : Address × Address} (hk : k ≠ convKey x y) :
    (dmStore s x y c t).conversations k = s.conversations k := by
  simp [dmStore, Function.update_noteq hk]

theorem dmStore_uc_inConv (s : State) (x y : Address) (c : String) (t : Nat)
    (hIn : isInConversation s x y = true) :
    (dmStore s x y c t).userConversations = s.userConversations := by
  simp [dmStore, hIn]

/-- A first self-message pushes the sender onto its own list twice. -/
theorem dmStore_uc_self (s : State) (x : Address) (c : String) (t : Nat)
    (hIn : isInConversation s x x = false) :
    (dmStore s x x c t).userConversations =
      Function.update s.userConversations x
        (s.userConversations x ++ [x] ++ [x]) := by
  simp [dmStore, hIn, Function.update_same, Function.update_idem]

/-- A first message between distinct parties pushes each onto the
other's list once. -/
theorem dmStore_uc_ne (s : State) (x y : Address) (c : String) (t : Nat)
    (hxy : x ≠ y) (hIn : isInConversation s x y = false) :
    (dmStore s x y c t).userConversations =
      Function.update
        (Function.update s.userConversations x (s.userConversations x ++ [y]))
        y (s.userConversations y ++ [x]) := by
  simp [dmStore, hIn, Function.update_noteq (Ne.symm hxy)]

theorem ucInv_dmStore {s : State} {x y : Address} {c : String} {t : Nat}
    (h : UcInv s) : UcInv (dmStore s x y c t) := by
  intro a b hab
  by_cases hxy' : x = y
  · subst hxy'
    have hcne : convKey a b ≠ convKey x x := convKey_ne_self hab
    rw [dmStore_conversations_ne s x x c t hcne]
    cases hIn : isInConversation s x x with
    | true =>
      rw [dmStore_uc_inConv s x x c t hIn]
      exact h a b hab
    | false =>
      rw [dmStore_uc_self s x c t hIn]
      by_cases hax : a = x
      · subst hax
        rw [Function.update_same, List.count_append, List.count_append]
        have hbx : b ≠ a := Ne.symm hab
        simp [List.count_singleton', hbx]
        exact h a b hab
      · rw [Function.update_noteq hax]
        exact h a b hab
  · cases hIn : isInConversation s x y with
    | true =>
      rw [dmStore_uc_inConv s x y c t hIn]
      have hmem : y ∈ s.userConversations x := by
        simpa [isInConversation] using hIn
      have hcount : 0 < (s.userConversations x).count y :=
        List.count_pos_iff.mpr hmem
      have hconv : s.conversations (convKey x y) ≠ [] := by
        intro hnil
        have hx := h x y hxy'
        rw [if_pos hnil] at hx
        omega
      by_cases hk : convKey a b = convKey x y
      · rw [hk, dmStore_conversations_key]
        rw [if_neg (by simp)]
        have hx := h a b hab
        rw [hk, if_neg hconv] at hx
        exact hx
      · rw [dmStore_conversations_ne s x y c t hk]
        exact h a b hab
    | false =>
      rw [dmStore_uc_ne s x y c t hxy' hIn]
      have hnmem : y ∉ s.userConversations x := by
        simpa [isInConversation] using hIn
      have hcount0 : (s.userConversations x).count y = 0 :=
        List.count_eq_zero.mpr hnmem
      have hconvnil : s.conversations (convKey x y) = [] := by
        by_contra hne
        have hx := h x y hxy'
        rw [if_neg hne] at hx
        omega
      have hcountyx : (s.userConversations y).count x = 0 := by
        have hy := h y x (Ne.symm hxy')
        rw [convKey_comm y x, if_pos hconvnil] at hy
        exact hy
      by_cases hk : convKey a b = convKey x y
      · rw [hk, dmStore_conversations_key, if_neg (by simp)]
        rcases convKey_inj hk with ⟨ha, hb⟩ | ⟨ha, hb⟩
        · subst ha; subst hb
          rw [Function.update_noteq hxy', Function.update_same,
            List.count_append]
          simp [List.count_singleton', hcount0]
        · subst ha; subst hb
          rw [Function.update_same, List.count_append]
          simp [List.count_singleton', hcountyx]
      · rw [dmStore_conversations_ne s x y c t hk]
        have hnot : ¬ ((a = x ∧ b = y) ∨ (a = y ∧ b = x)) := by
          intro hcase
          apply hk
          rcases hcase with ⟨ha, hb⟩ | ⟨ha, hb⟩
          · rw [ha, hb]
          · rw [ha, hb, convKey_comm]
        by_cases hay : a = y
        · subst hay
          rw [Function.update_same, List.count_append]
          have hbx : b ≠ x := fun hb => hnot (Or.inr ⟨rfl, hb⟩)
          simp [List.count_singleton', hbx]
          exact h a b hab
        · rw [Function.update_noteq hay]
          by_cases hax : a = x
          · subst hax
            rw [Function.update_same, List.count_append]
            have hby : b ≠ y := fun hb => hnot (Or.inl ⟨rfl, hb⟩)
            simp [List.count_singleton', hby]
            exact h a b hab
          · rw [Function.update_noteq hax]
            exact h a b hab

/-- Every transaction preserves `UcInv` from an arbitrary state. -/
theorem ucInv_apply (s : State) (tx : Tx) (h : UcInv s) :
    UcInv (apply s tx) := by
  rcases apply_rcases s tx with hA |
    ⟨a, u, i, t, -, -, -, hA⟩ | ⟨a, u, t, -, -, -, hA⟩ |
    ⟨a, i, -, -, hA⟩ | ⟨a, c, t, -, -, hA⟩ | ⟨a, b, c, t, -, -, -, hA⟩ <;>
  rw [hA]
  · exact h
  · intro p q hpq
    simpa [registerStore] using h p q hpq
  · intro p q hpq
    simpa [changeStore] using h p q hpq
  · intro p q hpq
    simpa [picStore] using h p q hpq
  · intro p q hpq
    simpa [postStore] using h p q hpq
  · exact ucInv_dmStore h

theorem ucInv_init : UcInv initState := by
  intro a b hab
  simp [initState]

theorem countInv_init : CountInv initState := by
  constructor <;> simp [initState]

theorem msgIdInv_init : MsgIdInv initState := by
  constructor
  · simp [initState]
  · intro i hi
    simp [initState] at hi

/-- Every reachable state satisfies the counter invariant. -/
theorem reachable_countInv {s : State} (h : Reachable s) : CountInv s := by
  induction h with
  | init => exact countInv_init
  | step tx hs _ ih => exact countInv_apply _ tx ih

/-- Every reachable state satisfies the message-id invariant. -/
theorem reachable_msgIdInv {s : State} (h : Reachable s) : MsgIdInv s := by
  induction h with
  | init => exact msgIdInv_init
  | step tx hs _ ih => exact msgIdInv_apply _ tx ih

/-- Every reachable state satisfies the conversation-index
invariant. -/
theorem reachable_ucInv {s : State} (h : Reachable s) : UcInv s := by
  induction h with
  | init => exact ucInv_init
  | step tx hs _ ih => exact ucInv_apply _ tx ih

/-- Registration is permanent: no transaction un-registers an
address. -/
theorem isRegistered_apply_mono (s : State) (tx : Tx) (a : Address)
    (h : (s.users a).isRegistered = true) :
    ((apply s tx).users a).isRegistered = true := by
  rcases apply_rcases s tx with hA |
    ⟨p, u, i, t, -, hreg, -, hA⟩ | ⟨p, u, t, -, -, -, hA⟩ |
    ⟨p, i, -, -, hA⟩ | ⟨p, c, t, -, -, hA⟩ | ⟨p, q, c, t, -, -, -, hA⟩ <;>
  rw [hA]
  · exact h
  · by_cases hap : a = p
    · subst hap; rw [h] at hreg; exact absurd hreg (by simp)
    · simpa [registerStore, Function.update_noteq hap] using h
  · by_cases hap : a = p
    · subst hap; simp [changeStore, Function.update_same, h]
    · simpa [changeStore, Function.update_noteq hap] using h
  · by_cases hap : a = p
    · subst hap; simp [picStore, Function.update_same, h]
    · simpa [picStore, Function.update_noteq hap] using h
  · by_cases hap : a = p
    · subst hap; simp [postStore, Function.update_same, h]
    · simpa [postStore, Function.update_noteq hap] using h
  · simpa [dmStore] using h

/-- A claimed username stays claimed under further register calls
(register never clears an index entry). -/
theorem regReach_taken {s s' : State} (h : RegReach s s') {u : String}
    (hu : s.usernameToAddress u ≠ 0) : s'.usernameToAddress u ≠ 0 := by
  induction h with
  | refl => exact hu
  | step a u2 i t hr ih =>
    unfold apply
    cases hE : exec _ (.register a u2 i t) with
    | error e => exact ih
    | ok s₂ =>
      simp only [exec] at hE
      rw [registerUser_ok_iff] at hE
      obtain ⟨-, -, -, hfree, hst⟩ := hE
      rw [← hst]
      by_cases hu2 : u = u2
      · subst hu2; exact absurd hfree ih
      · simpa [registerStore, Function.update_noteq hu2] using ih

theorem reachable_sAlice : Reachable sAlice := by
  have h := Reachable.step (Tx.register 1 "alice" "av" 0) (by decide)
    Reachable.init
  exact h

theorem reachable_sAB : Reachable sAB := by
  have h := Reachable.step (Tx.register 2 "bob" "bv" 1) (by decide)
    reachable_sAlice
  exact h

theorem reachable_sABdm : Reachable sABdm := by
  have h := Reachable.step (Tx.dm 1 2 "yo" 3) (by decide) reachable_sAB
  exact h

theorem reachable_sPost : Reachable sPost := by
  have h := Reachable.step (Tx.post 1 "hi" 5) (by decide) reachable_sAlice
  exact h

/-- C3: for every state and all addresses `a`, `b`, `getConversation`
returns exactly the same ordered sequence of direct messages whichever
way round the two addresses are passed — the canonical conversation
key is symmetric. -/
theorem C3_conversation_lookup_symmetric (s : State) (a b : Address) :
    getConversation s a b = getConversation s b a := by
  unfold getConversation
  rw [convKey_comm]

/-- C8: in every reachable state `totalUsers` equals the length of the
`registeredUsers` array and `totalMessages` equals the length of the
`generalChatMessages` array, and every transaction preserves both
equalities from any state satisfying them. -/
theorem C8_counters_match_array_lengths :
    (∀ s : State, Reachable s →
      s.totalUsers = s.registeredUsers.length ∧
      s.totalMessages = s.generalChatMessages.length) ∧
    (∀ (s : State) (tx : Tx),
      s.totalUsers = s.registeredUsers.length →
      s.totalMessages = s.generalChatMessages.length →
      (apply s tx).totalUsers = (apply s tx).registeredUsers.length ∧
      (apply s tx).totalMessages = (apply s tx).generalChatMessages.length) :=
  ⟨fun _ h => reachable_countInv h,
   fun s tx h1 h2 => countInv_apply s tx ⟨h1, h2⟩⟩

/-- Witness for C8 at a concrete reachable state and transaction. -/
theorem C8_counters_match_array_lengths_witness :
    (sAlice.totalUsers = sAlice.registeredUsers.length ∧
     sAlice.totalMessages = sAlice.generalChatMessages.length) ∧
    ((apply sAlice (Tx.post 1 "hi" 5)).totalUsers =
       (apply sAlice (Tx.post 1 "hi" 5)).registeredUsers.length ∧
     (apply sAlice (Tx.post 1 "hi" 5)).totalMessages =
       (apply sAlice (Tx.post 1 "hi" 5)).generalChatMessages.length) :=
  ⟨C8_counters_match_array_lengths.1 sAlice reachable_sAlice,
   C8_counters_match_array_lengths.2 sAlice (Tx.post 1 "hi" 5)
     (by decide) (by decide)⟩

/-- C9: in every reachable state the conversation-partner lists are
symmetric — `b` occurs in `userConversations a` with the same
multiplicity as `a` occurs in `userConversations b`. -/
theorem C9_partner_list_multiplicity_symmetric (s : State)
    (h : Reachable s) (a b : Address) :
    (getUserConversations s a).count b =
      (getUserConversations s b).count a := by
  by_cases hab : a = b
  · subst hab; rfl
  · have h1 := reachable_ucInv h a b hab
    have h2 := reachable_ucInv h b a (Ne.symm hab)
    rw [convKey_comm b a] at h2
    unfold getUserConversations
    rw [h1, h2]

/-- Witness for C9 at a concrete reachable state. -/
theorem C9_partner_list_multiplicity_symmetric_witness :
    (getUserConversations sABdm 1).count 2 =
      (getUserConversations sABdm 2).count 1 :=
  C9_partner_list_multiplicity_symmetric sABdm reachable_sABdm 1 2

/-- C10: a registered address sending a direct message to itself while
`isInConversation a a` is false gets its own address appended to its
conversation-partner list twice by that single call. -/
theorem C10_self_dm_double_entry (s : State) (a : Address) (c : String)
    (t : Nat) (s' : State) (hIn : isInConversation s a a = false)
    (hE : exec s (.dm a a c t) = .ok s') :
    (getUserConversations s' a).count a =
      (getUserConversations s a).count a + 2 ∧
    (getUserConversations s' a).count a = 2 := by
  simp only [exec] at hE
  rw [sendDirectMessage_ok_iff] at hE
  obtain ⟨-, -, -, -, hst⟩ := hE
  have hcount0 : (s.userConversations a).count a = 0 :=
    List.count_eq_zero.mpr (by simpa [isInConversation] using hIn)
  have hkey : (getUserConversations s' a).count a =
      (s.userConversations a).count a + 2 := by
    rw [← hst]
    unfold getUserConversations
    rw [dmStore_uc_self s a c t hIn, Function.update_same,
      List.count_append, List.count_append]
    simp [List.count_singleton']
  exact ⟨hkey, by rw [hkey, hcount0]⟩

/-- Witness for C10: alice messages herself in a concrete state. -/
theorem C10_self_dm_double_entry_witness :
    isInConversation sAlice 1 1 = false ∧
    ((getUserConversations sSelfDM 1).count 1 =
       (getUserConversations sAlice 1).count 1 + 2 ∧
     (getUserConversations sSelfDM 1).count 1 = 2) :=
  ⟨by decide,
   C10_self_dm_double_entry sAlice 1 "hi" 2 sSelfDM (by decide) rfl⟩

/-- C6: a rejected write call leaves the entire ledger state unchanged;
in particular `sendMessage` with 1001-character content always reverts
and mutates nothing. -/
theorem C6_rejected_write_leaves_state_unchanged :
    (∀ (s : State) (tx : Tx) (e : String),
       exec s tx = .error e → apply s tx = s) ∧
    (∀ (s : State) (a : Address) (c : String) (t : Nat),
       c.length = 1001 →
       (∃ e, exec s (.post a c t) = .error e) ∧
       apply s (.post a c t) = s) := by
  constructor
  · intro s tx e hE
    unfold apply
    rw [hE]
  · intro s a c t hc
    have herr : ∃ e, exec s (.post a c t) = .error e := by
      simp only [exec]
      unfold sendMessage
      by_cases h1 : (s.users a).isRegistered = true
      · rw [if_neg (by simp [h1]), if_neg (by omega), if_pos (by omega)]
        exact ⟨_, rfl⟩
      · rw [if_pos (by simpa using h1)]
        exact ⟨_, rfl⟩
    obtain ⟨e, hE⟩ := herr
    refine ⟨⟨e, hE⟩, ?_⟩
    unfold apply
    rw [hE]

/-- Witness for C6: an unregistered sender's post reverts and leaves
the fresh state intact, and a 1001-character post reverts from a
concrete registered state. -/
theorem C6_rejected_write_leaves_state_unchanged_witness :
    apply initState (Tx.post 1 "hi" 0) = initState ∧
    ((∃ e, exec sAlice (Tx.post 1 longContent 0) = .error e) ∧
     apply sAlice (Tx.post 1 longContent 0) = sAlice) :=
  ⟨C6_rejected_write_leaves_state_unchanged.1 initState (Tx.post 1 "hi" 0)
     "User must be registered to perform this action" rfl,
   C6_rejected_write_leaves_state_unchanged.2 sAlice 1 longContent 0
     (by show (List.replicate 1001 'a').length = 1001
         rw [List.length_replicate])⟩

/-- C7: whenever `changeUsername` succeeds from a reachable state, the
old username reads as available and the new one as taken in the single
post-state the transaction produces. -/
theorem C7_change_frees_old_claims_new (s : State) (a : Address)
    (u : String) (t : Nat) (s' : State) (h : Reachable s)
    (hE : exec s (.changeName a u t) = .ok s') :
    isUsernameAvailable s' ((s.users a).username) = true ∧
    isUsernameAvailable s' u = false := by
  obtain ⟨hg1, hg2⟩ := reachable_goodState h
  simp only [exec] at hE
  rw [changeUsername_ok_iff] at hE
  obtain ⟨hreg, -, -, hfree, hst⟩ := hE
  obtain ⟨ha0, hold⟩ := hg1 a hreg
  have holdu : (s.users a).username ≠ u := by
    intro he
    rw [he, hfree] at hold
    exact ha0 hold.symm
  subst hst
  constructor
  · unfold isUsernameAvailable
    simp [changeStore, Function.update_noteq holdu, Function.update_same]
  · unfold isUsernameAvailable
    simp [changeStore, Function.update_same, ha0]

/-- Witness for C7: alice renames to "wonder" in a concrete state. -/
theorem C7_change_frees_old_claims_new_witness :
    isUsernameAvailable (apply sAlice (Tx.changeName 1 "wonder" 2))
      "alice" = true ∧
    isUsernameAvailable (apply sAlice (Tx.changeName 1 "wonder" 2))
      "wonder" = false :=
  C7_change_frees_old_claims_new sAlice 1 "wonder" 2
    (apply sAlice (Tx.changeName 1 "wonder" 2)) reachable_sAlice rfl

/-- C2: a successful `sendMessage` from a reachable state grows the
general chat by exactly one entry whose id is the previous length and
bumps the sender's `totalMessagesSent` by one; in every reachable
state the message at index `i` carries id `i`, so ids are zero-based,
strictly increasing and gapless. -/
theorem C2_post_message_effects :
    (∀ (s : State) (a : Address) (c : String) (t : Nat) (s' : State),
       Reachable s → exec s (.post a c t) = .ok s' →
       (getGeneralChatMessages s').length =
         (getGeneralChatMessages s).length + 1 ∧
       (getGeneralChatMessages s').getLast? =
         some ⟨a, c, t, (getGeneralChatMessages s).length⟩ ∧
       (s'.users a).totalMessagesSent =
         (s.users a).totalMessagesSent + 1) ∧
    (∀ s : State, Reachable s →
       ∀ i (hi : i < (getGeneralChatMessages s).length),
         ((getGeneralChatMessages s).get ⟨i, hi⟩).messageId = i) := by
  constructor
  · intro s a c t s' h hE
    obtain ⟨htm, -⟩ := reachable_msgIdInv h
    simp only [exec] at hE
    rw [sendMessage_ok_iff] at hE
    obtain ⟨-, -, -, hst⟩ := hE
    subst hst
    refine ⟨?_, ?_, ?_⟩
    · simp [getGeneralChatMessages, postStore]
    · simp [getGeneralChatMessages, postStore, htm]
    · simp [postStore, Function.update_same]
  · intro s h i hi
    exact (reachable_msgIdInv h).2 i hi

/-- Witness for C2: alice's first post in a concrete state. -/
theorem C2_post_message_effects_witness :
    ((getGeneralChatMessages sPost).length =
       (getGeneralChatMessages sAlice).length + 1 ∧
     (getGeneralChatMessages sPost).getLast? =
       some ⟨1, "hi", 5, (getGeneralChatMessages sAlice).length⟩ ∧
     (sPost.users 1).totalMessagesSent =
       (sAlice.users 1).totalMessagesSent + 1) ∧
    ((getGeneralChatMessages sPost).get ⟨0, by decide⟩).messageId = 0 :=
  ⟨C2_post_message_effects.1 sAlice 1 "hi" 5 sPost reachable_sAlice rfl,
   C2_post_message_effects.2 sPost reachable_sPost 0 (by decide)⟩

/-- C1 counterexample: with a `changeUsername` interleaved, two
register calls both succeed with the username "u" — first address 1
registers "u", renames to "v" (releasing "u"), then address 2
registers "u" again. -/
theorem C1_counterexample :
    exec initState (Tx.register 1 "u" "p1" 0) =
      .ok (apply initState (Tx.register 1 "u" "p1" 0)) ∧
    exec (apply initState (Tx.register 1 "u" "p1" 0))
        (Tx.changeName 1 "v" 1) =
      .ok (apply (apply initState (Tx.register 1 "u" "p1" 0))
        (Tx.changeName 1 "v" 1)) ∧
    exec (apply (apply initState (Tx.register 1 "u" "p1" 0))
        (Tx.changeName 1 "v" 1)) (Tx.register 2 "u" "p2" 2) =
      .ok (apply (apply (apply initState (Tx.register 1 "u" "p1" 0))
        (Tx.changeName 1 "v" 1)) (Tx.register 2 "u" "p2" 2)) :=
  ⟨rfl, rfl, rfl⟩

/-- C1 (amended): (a) registration is permanent, (b) a successful
register call requires a previously-unregistered sender — so no
address ever successfully registers twice, (c) over sequences of
register calls alone no two successful calls claim the same username,
and (d) in every reachable state no two registered profiles share a
username. -/
theorem C1_username_uniqueness :
    (∀ (s : State) (tx : Tx) (a : Address),
       (s.users a).isRegistered = true →
       ((apply s tx).users a).isRegistered = true) ∧
    (∀ (s : State) (a : Address) (u i : String) (t : Nat) (s' : State),
       exec s (.register a u i t) = .ok s' →
       (s.users a).isRegistered = false) ∧
    (∀ (s : State) (a : Address) (u i : String) (t : Nat) (s₁ : State),
       exec s (.register a u i t) = .ok s₁ → a ≠ 0 →
       ∀ s₂, RegReach s₁ s₂ →
       ∀ (b : Address) (i₂ : String) (t₂ : Nat) (s₃ : State),
         exec s₂ (.register b u i₂ t₂) ≠ .ok s₃) ∧
    (∀ s : State, Reachable s → ∀ a b : Address,
       (s.users a).isRegistered = true → (s.users b).isRegistered = true →
       (s.users a).username = (s.users b).username → a = b) := by
  refine ⟨fun s tx a h => isRegistered_apply_mono s tx a h, ?_, ?_, ?_⟩
  · intro s a u i t s' hE
    simp only [exec] at hE
    rw [registerUser_ok_iff] at hE
    exact hE.2.2.1
  · intro s a u i t s₁ hE ha s₂ hr b i₂ t₂ s₃ hE₂
    simp only [exec] at hE hE₂
    rw [registerUser_ok_iff] at hE hE₂
    obtain ⟨-, -, -, -, hst⟩ := hE
    obtain ⟨-, -, -, hfree₂, -⟩ := hE₂
    have h1 : s₁.usernameToAddress u ≠ 0 := by
      rw [← hst]
      simpa [registerStore, Function.update_same] using ha
    exact regReach_taken hr h1 hfree₂
  · intro s h a b hra hrb heq
    obtain ⟨hg1, -⟩ := reachable_goodState h
    obtain ⟨-, hmapa⟩ := hg1 a hra
    obtain ⟨-, hmapb⟩ := hg1 b hrb
    rw [heq] at hmapa
    exact hmapa.symm.trans hmapb

/-- Witness for C1: each amended conjunct exercised at concrete
inputs. -/
theorem C1_username_uniqueness_witness :
    ((apply sAlice (Tx.post 1 "hi" 5)).users 1).isRegistered = true ∧
    (initState.users 1).isRegistered = false ∧
    exec (apply initState (Tx.register 1 "u" "p1" 0))
        (Tx.register 2 "u" "p2" 2) ≠
      .ok (registerStore (apply initState (Tx.register 1 "u" "p1" 0))
        2 "u" "p2" 2) ∧
    (1 : Address) = 1 :=
  ⟨C1_username_uniqueness.1 sAlice (Tx.post 1 "hi" 5) 1 rfl,
   C1_username_uniqueness.2.1 initState 1 "u" "p1" 0
     (apply initState (Tx.register 1 "u" "p1" 0)) rfl,
   C1_username_uniqueness.2.2.1 initState 1 "u" "p1" 0
     (apply initState (Tx.register 1 "u" "p1" 0)) rfl (by decide)
     (apply initState (Tx.register 1 "u" "p1" 0)) (RegReach.refl _)
     2 "p2" 2
     (registerStore (apply initState (Tx.register 1 "u" "p1" 0))
       2 "u" "p2" 2),
   C1_username_uniqueness.2.2.2 sAlice reachable_sAlice 1 1 rfl rfl rfl⟩

/-- C4 counterexample: alice, registered with username "alice",
calling `changeUsername` with her own current username is rejected
with "Username is already taken" — not accepted as a no-op. -/
theorem C4_counterexample :
    (sAlice.users 1).isRegistered = true ∧
    (sAlice.users 1).username = "alice" ∧
    exec sAlice (Tx.changeName 1 "alice" 1) =
      .error "Username is already taken" :=
  ⟨rfl, rfl, rfl⟩

/-- C4 (amended): from a reachable state, `changeUsername` rejects iff
the caller is not registered, or the new username is empty or longer
than 50, or the username is claimed by ANY registered address —
including the caller, so renaming to one's own current username is
rejected rather than being a no-op. -/
theorem C4_change_username_reject_iff (s : State) (a : Address)
    (u : String) (t : Nat) (h : Reachable s) :
    (∃ e, exec s (.changeName a u t) = .error e) ↔
      ((s.users a).isRegistered = false ∨ u.length = 0 ∨ 50 < u.length ∨
       ∃ b, (s.users b).isRegistered = true ∧ (s.users b).username = u) := by
  obtain ⟨hg1, hg2⟩ := reachable_goodState h
  constructor
  · rintro ⟨e, hE⟩
    simp only [exec] at hE
    unfold changeUsername at hE
    split_ifs at hE with h1 h2 h3 h4
    · exact Or.inr (Or.inl h2)
    · exact Or.inr (Or.inr (Or.inl h3))
    · refine Or.inr (Or.inr (Or.inr ?_))
      obtain ⟨hr, hu⟩ := hg2 u h4
      exact ⟨_, hr, hu⟩
    · exact Or.inl (by simpa using h1)
  · intro hcase
    cases hE : exec s (.changeName a u t) with
    | error e => exact ⟨e, rfl⟩
    | ok s' =>
      exfalso
      simp only [exec] at hE
      rw [changeUsername_ok_iff] at hE
      obtain ⟨hreg, hl0, hl50, hfree, -⟩ := hE
      rcases hcase with hc | hc | hc | ⟨b, hbr, hbu⟩
      · rw [hreg] at hc
        exact absurd hc (by simp)
      · exact hl0 hc
      · omega
      · obtain ⟨hb0, hbmap⟩ := hg1 b hbr
        rw [hbu, hfree] at hbmap
        exact hb0 hbmap.symm

/-- Witness for C4: an unregistered caller's rename is rejected. -/
theorem C4_change_username_reject_iff_witness :
    ∃ e, exec sAlice (Tx.changeName 2 "x" 1) = .error e :=
  (C4_change_username_reject_iff sAlice 2 "x" 1 reachable_sAlice).mpr
    (Or.inl rfl)

/-- C5 counterexample: the claim's "exactly once" fails at `a = b` —
after alice's first self-message the conversation {1,1} is nonempty,
yet 1 appears twice in alice's own conversation-partner list. -/
theorem C5_counterexample :
    getConversation sSelfDM 1 1 ≠ [] ∧
    (getUserConversations sSelfDM 1).count 1 = 2 :=
  ⟨by decide, by decide⟩

/-- C5 (amended): a successful direct message makes the pair's
conversation nonempty, and for DISTINCT `a ≠ b` every reachable state
with a nonempty {a,b} conversation shows `b` exactly once in
`ConversationIndex a` and `a` exactly once in `ConversationIndex b`,
however many further messages are exchanged; for `a = b` the sender's
own address is instead entered twice (see C10). -/
theorem C5_partner_indexed_once :
    (∀ (s : State) (x y : Address) (c : String) (t : Nat) (s' : State),
       exec s (.dm x y c t) = .ok s' → getConversation s' x y ≠ []) ∧
    (∀ s : State, Reachable s → ∀ a b : Address, a ≠ b →
       getConversation s a b ≠ [] →
       (getUserConversations s a).count b = 1 ∧
       (getUserConversations s b).count a = 1) := by
  constructor
  · intro s x y c t s' hE
    simp only [exec] at hE
    rw [sendDirectMessage_ok_iff] at hE
    obtain ⟨-, -, -, -, hst⟩ := hE
    subst hst
    unfold getConversation
    rw [dmStore_conversations_key]
    simp
  · intro s h a b hab hconv
    have h1 := reachable_ucInv h a b hab
    have h2 := reachable_ucInv h b a (Ne.symm hab)
    rw [convKey_comm b a] at h2
    unfold getConversation at hconv
    rw [if_neg hconv] at h1 h2
    exact ⟨h1, h2⟩

/-- Witness for C5: alice and bob exchange a first message. -/
theorem C5_partner_indexed_once_witness :
    getConversation sABdm 1 2 ≠ [] ∧
    ((getUserConversations sABdm 1).count 2 = 1 ∧
     (getUserConversations sABdm 2).count 1 = 1) :=
  ⟨C5_partner_indexed_once.1 sAB 1 2 "yo" 3 sABdm rfl,
   C5_partner_indexed_once.2 sABdm reachable_sABdm 1 2 (by decide)
     (C5_partner_indexed_once.1 sAB 1 2 "yo" 3 sABdm rfl)⟩

end AmigoChat
